import Mathlib

/-!
Verification of the KNU token distribution engine
(`tools/knu_distribution.py`).

Shallow embedding: Python floats are modelled as exact rationals (`ℚ`),
Python `int(x)` (truncation toward zero) as `pyInt`, lists as `List`,
and the external reward subprocess as an oracle supplying each call's
captured process result.  Console printing is I/O and is not modelled;
the ledger CSV is modelled as a list of rows threaded through the
distribution loop.
-/

namespace KNU

/-- The `KNUEntry` dataclass of `knu_distribution.py`, numeric fields as `ℚ`. -/
structure KNUEntry where
  knu_id : String
  knot_id : String
  owner : String
  E_pred : ℚ
  dR_primary : ℚ
  dR_adj_sum : ℚ
  status : String
  artifacts : List String
  validated_by : String
  validated_at : String
deriving Repr, DecidableEq

/-- The `Distribution` dataclass: result of distributing tokens to a KNU owner. -/
structure Distribution where
  knu_id : String
  owner : String
  weight : ℚ
  tokens_tt : ℚ
  tokens_deg : ℤ
  tx_id : String
deriving Repr, DecidableEq

/-- Python `int()` applied to a real value: truncation toward zero. -/
def pyInt (q : ℚ) : ℤ := if 0 ≤ q then ⌊q⌋ else ⌈q⌉

/-- Effective impact of one entry: `dR_primary + lambda_spill * dR_adj_sum`
(line `impacts = [...]` of `calculate_weights`). -/
def effectiveImpact (lam : ℚ) (k : KNUEntry) : ℚ :=
  k.dR_primary + lam * k.dR_adj_sum

/-- Total predicted effort over a batch (`total_effort` in `calculate_weights`). -/
def totalEffort (knus : List KNUEntry) : ℚ :=
  (knus.map KNUEntry.E_pred).sum

/-- Total effective impact over a batch (`total_impact` in `calculate_weights`). -/
def totalImpact (knus : List KNUEntry) (lam : ℚ) : ℚ :=
  (knus.map (effectiveImpact lam)).sum

/-- The `effort_norm` list of `calculate_weights`: all zeros when total effort
is zero, otherwise each effort divided by the total. -/
def effortNorm (knus : List KNUEntry) : List ℚ :=
  if totalEffort knus = 0 then
    knus.map (fun _ => 0)
  else
    knus.map (fun k => k.E_pred / totalEffort knus)

/-- The `impact_norm` list of `calculate_weights`: all zeros when total impact
is zero, otherwise each effective impact divided by the total. -/
def impactNorm (knus : List KNUEntry) (lam : ℚ) : List ℚ :=
  if totalImpact knus lam = 0 then
    (knus.map (effectiveImpact lam)).map (fun _ => 0)
  else
    (knus.map (effectiveImpact lam)).map (fun i => i / totalImpact knus lam)

/-- The `weights` list of `calculate_weights` before renormalization:
`alpha * effort_norm[i] + (1 - alpha) * impact_norm[i]`. -/
def blendWeights (knus : List KNUEntry) (alpha lam : ℚ) : List ℚ :=
  List.zipWith (fun e i => alpha * e + (1 - alpha) * i)
    (effortNorm knus) (impactNorm knus lam)

/-- Final weights of `calculate_weights`: renormalized by the total when the
total is positive, otherwise left as is. -/
def finalWeights (knus : List KNUEntry) (alpha lam : ℚ) : List ℚ :=
  if 0 < (blendWeights knus alpha lam).sum then
    (blendWeights knus alpha lam).map
      (fun w => w / (blendWeights knus alpha lam).sum)
  else
    blendWeights knus alpha lam

/-- The method `KNUDistributor.calculate_weights`: returns `list(zip(knus, weights))`,
empty input returning `[]`. -/
def calculate_weights (knus : List KNUEntry) (alpha lam : ℚ) :
    List (KNUEntry × ℚ) :=
  if knus.isEmpty then [] else knus.zip (finalWeights knus alpha lam)

/-- Eligibility policy block read from `pools_data` in `validate_eligibility`
(defaults `["accepted", "merged"]`, artifacts and validation required). -/
structure Eligibility where
  required_status : List String
  require_artifacts : Bool
  require_validation : Bool
deriving Repr, DecidableEq

def defaultEligibility : Eligibility :=
  ⟨["accepted", "merged"], true, true⟩

/-- Python `repr` of a list of strings, as interpolated into the status
failure message by the f-string in `validate_eligibility`. -/
def pyListRepr (l : List String) : String :=
  "[" ++ String.intercalate ", " (l.map (fun s => "'" ++ s ++ "'")) ++ "]"

/-- The method `KNUDistributor.validate_eligibility`: returns `(is_valid, error_message)`,
checking status, then artifacts, then validator, then timestamp (Python's
truthiness test on a list or string is emptiness). -/
def validate_eligibility (elig : Eligibility) (knu : KNUEntry) :
    Bool × String :=
  if knu.status ∉ elig.required_status then
    (false, "Status '" ++ knu.status ++ "' not in required: " ++
      pyListRepr elig.required_status)
  else if elig.require_artifacts = true ∧ knu.artifacts = [] then
    (false, "No artifacts provided (required)")
  else if elig.require_validation = true ∧ knu.validated_by = "" then
    (false, "No validator specified (required)")
  else if elig.require_validation = true ∧ knu.validated_at = "" then
    (false, "No validation timestamp (required)")
  else
    (true, "")

/-- Captured result of the `subprocess.run` call on `tek_tokens.py`
in `execute_reward`: exit status plus captured output streams. -/
structure ProcResult where
  returncode : ℤ
  stdout : String
  stderr : String
deriving Repr, DecidableEq

/-- One row of the KNU ledger CSV, as written by `_log_to_csv`. -/
structure LedgerRow where
  timestamp : String
  knot_id : String
  knu_id : String
  owner : String
  E_pred : ℚ
  dR_primary : ℚ
  dR_adj_sum : ℚ
  weight : ℚ
  tokens_tt : ℚ
  tokens_deg : ℤ
  tx_id : String
  validated_by : String
deriving Repr, DecidableEq

/-- The regex `TX-\d{6}` tested at the head of a character list:
literal `TX-` followed by at least six digits. -/
def matchTxAt : List Char → Bool
  | c1 :: c2 :: c3 :: rest =>
    (c1 == 'T') && (c2 == 'X') && (c3 == '-') &&
    ((rest.take 6).length == 6) && (rest.take 6).all Char.isDigit
  | _ => false

/-- The search `re.search(r'(TX-\d{6})', s)` over a character list: leftmost match,
returning the nine matched characters. -/
def searchTx : List Char → Option (List Char)
  | [] => none
  | c :: cs =>
    if matchTxAt (c :: cs) then some ((c :: cs).take 9) else searchTx cs

/-- Specification-side reading of "the output contains a substring matching
`TX-` followed by six digits": the character list splits around such a
match. -/
def containsTx (cs : List Char) : Prop :=
  ∃ pre ds post, cs = pre ++ 'T' :: 'X' :: '-' :: (ds ++ post) ∧
    ds.length = 6 ∧ ∀ c ∈ ds, c.isDigit

/-- The method `KNUDistributor.execute_reward`, parametrized by the captured result of
the external `tek_tokens.py reward` call: a non-zero exit status or an
output without a `TX-\d{6}` match raises `DistributionError` (modelled as
`Except.error` with the code's message); otherwise the matched transaction
id is returned.  The ledger append performed on success is modelled at the
call site in `distLoop`. -/
def execute_reward (owner : String) (r : ProcResult) : Except String String :=
  if r.returncode ≠ 0 then
    Except.error ("TT reward failed for " ++ owner ++ ": " ++ r.stderr)
  else
    match searchTx r.stdout.data with
    | none =>
      Except.error ("Could not parse transaction ID from output: " ++ r.stdout)
    | some tx => Except.ok (String.mk tx)

/-- The per-record allocation arithmetic of the loop in
`KNUDistributor.distribute` (lines 391–402): each record is paired with its
weight and integer deg amount, `int(pool_deg * weight)` for every record
except the last, and `pool_deg - total_distributed_deg` for the last; the
running total accumulates every allocation. -/
def allocCore (pool_deg : ℤ) (running : ℤ) :
    List (KNUEntry × ℚ) → List (KNUEntry × ℚ × ℤ)
  | [] => []
  | [(knu, w)] => [(knu, w, pool_deg - running)]
  | (knu, w) :: p :: rest =>
    let a := pyInt ((pool_deg : ℚ) * w)
    (knu, w, a) :: allocCore pool_deg (running + a) (p :: rest)

/-- The loop body of `KNUDistributor.distribute` over already-weighted
records: computes each allocation, and in live mode (`dry_run = false`)
runs `execute_reward` on the oracle-supplied process result for that call
(`oracle i` is the result of the `i`-th external call, `ts i` the timestamp
taken for it); a `DistributionError` is caught and the loop continues
without appending the record (`continue`); on success the ledger row is
appended and the distribution records the transaction id. -/
def distLoop (pool_deg : ℤ) (knot_id : String) (oracle : ℕ → ProcResult)
    (ts : ℕ → String) (dry_run : Bool) :
    ℕ → ℤ → List (KNUEntry × ℚ) → List LedgerRow →
      List Distribution × List LedgerRow
  | _, _, [], ledger => ([], ledger)
  | i, running, (knu, w) :: rest, ledger =>
    let allocated_deg : ℤ :=
      match rest with
      | [] => pool_deg - running
      | _ :: _ => pyInt ((pool_deg : ℚ) * w)
    let allocated_tt : ℚ := (allocated_deg : ℚ) / 360
    let dist : Distribution :=
      ⟨knu.knu_id, knu.owner, w, allocated_tt, allocated_deg, ""⟩
    if dry_run then
      let res := distLoop pool_deg knot_id oracle ts dry_run (i + 1)
        (running + allocated_deg) rest ledger
      (dist :: res.1, res.2)
    else
      match execute_reward knu.owner (oracle i) with
      | Except.error _ =>
        distLoop pool_deg knot_id oracle ts dry_run (i + 1)
          (running + allocated_deg) rest ledger
      | Except.ok tx =>
        let row : LedgerRow :=
          ⟨ts i, knot_id, knu.knu_id, knu.owner, knu.E_pred, knu.dR_primary,
           knu.dR_adj_sum, w, allocated_tt, allocated_deg, tx,
           knu.validated_by⟩
        let res := distLoop pool_deg knot_id oracle ts dry_run (i + 1)
          (running + allocated_deg) rest (ledger ++ [row])
        ({ dist with tx_id := tx } :: res.1, res.2)

/-- The method `KNUDistributor.distribute`: filter to eligible records of the requested
KNOT, fail when none survive, weight the survivors, convert the pool to
deg (`int(pool.pool_tt * 360)`) and run the allocation/execution loop. -/
def distribute (elig : Eligibility) (alpha lam pool_tt : ℚ) (knot_id : String)
    (knus : List KNUEntry) (dry_run : Bool) (oracle : ℕ → ProcResult)
    (ts : ℕ → String) (ledger : List LedgerRow) :
    Except String (List Distribution × List LedgerRow) :=
  let valid_knus := knus.filter
    (fun k => (validate_eligibility elig k).1 && (k.knot_id == knot_id))
  if valid_knus.isEmpty then
    Except.error "No valid KNUs found for distribution"
  else
    Except.ok (distLoop (pyInt (pool_tt * 360)) knot_id oracle ts dry_run 0 0
      (calculate_weights valid_knus alpha lam) ledger)

/-- Specification-side view of one allocated record as the `Distribution`
produced in dry-run mode: empty transaction id. -/
def toDryDist (p : KNUEntry × ℚ × ℤ) : Distribution :=
  ⟨p.1.knu_id, p.1.owner, p.2.1, (p.2.2 : ℚ) / 360, p.2.2, ""⟩

/-- Specification-side view of a live run's returned list: from the pure
allocation list, keep exactly the entries whose external call (per the
oracle, at that entry's call index) succeeds, tagging each with its
transaction id; entries whose call fails are skipped but do not stop the
scan. -/
def liveSelect (oracle : ℕ → ProcResult) :
    ℕ → List (KNUEntry × ℚ × ℤ) → List Distribution
  | _, [] => []
  | i, (knu, w, a) :: rest =>
    match execute_reward knu.owner (oracle i) with
    | Except.error _ => liveSelect oracle (i + 1) rest
    | Except.ok tx =>
      ⟨knu.knu_id, knu.owner, w, (a : ℚ) / 360, a, tx⟩ ::
        liveSelect oracle (i + 1) rest

/-- Specification-side view of the ledger rows a live run appends: one row
per successful external call, in order. -/
def liveRows (oracle : ℕ → ProcResult) (ts : ℕ → String) (knot_id : String) :
    ℕ → List (KNUEntry × ℚ × ℤ) → List LedgerRow
  | _, [] => []
  | i, (knu, w, a) :: rest =>
    match execute_reward knu.owner (oracle i) with
    | Except.error _ => liveRows oracle ts knot_id (i + 1) rest
    | Except.ok tx =>
      ⟨ts i, knot_id, knu.knu_id, knu.owner, knu.E_pred, knu.dR_primary,
       knu.dR_adj_sum, w, (a : ℚ) / 360, a, tx, knu.validated_by⟩ ::
        liveRows oracle ts knot_id (i + 1) rest

/-- Pointwise view of `effort_norm`: the normalized effort assigned to one
entry of the batch (zero when total effort is zero). -/
def eF (knus : List KNUEntry) (k : KNUEntry) : ℚ :=
  if totalEffort knus = 0 then 0 else k.E_pred / totalEffort knus

/-- Pointwise view of `impact_norm`: the normalized effective impact
assigned to one entry of the batch (zero when total impact is zero). -/
def iF (knus : List KNUEntry) (lam : ℚ) (k : KNUEntry) : ℚ :=
  if totalImpact knus lam = 0 then 0
  else effectiveImpact lam k / totalImpact knus lam

/- ------------------------------------------------------------------ -/
/- Concrete records used to instantiate the theorems.                  -/
/- ------------------------------------------------------------------ -/

/-- An eligible record whose effort, primary impact and spillover are all
zero. -/
def zeroKNU : KNUEntry :=
  ⟨"KNU-K06-00-001", "K06", "alice", 0, 0, 0, "accepted",
   ["evidence.md"], "bob", "2025-01-01T00:00:00Z"⟩

/-- Eligible record with zero effort and primary impact 50. -/
def knuImpact50 : KNUEntry :=
  ⟨"KNU-K06-00-002", "K06", "alice", 0, 50, 0, "accepted",
   ["evidence.md"], "bob", "2025-01-01T00:00:00Z"⟩

/-- Eligible record with zero effort and primary impact 30. -/
def knuImpact30 : KNUEntry :=
  ⟨"KNU-K06-00-003", "K06", "carol", 0, 30, 0, "accepted",
   ["evidence.md"], "bob", "2025-01-01T00:00:00Z"⟩

/-- Eligible record with effort 5, primary impact 40 and spillover 20. -/
def knuSpill : KNUEntry :=
  ⟨"KNU-K06-00-004", "K06", "alice", 5, 40, 20, "accepted",
   ["evidence.md"], "bob", "2025-01-01T00:00:00Z"⟩

/-- Like `knuSpill` but with zero spillover. -/
def knuNoSpill : KNUEntry :=
  ⟨"KNU-K06-00-005", "K06", "carol", 5, 40, 0, "accepted",
   ["evidence.md"], "bob", "2025-01-01T00:00:00Z"⟩

/-- A successful external call whose output carries `TX-123456`. -/
def txOkResult : ProcResult :=
  ⟨0, "Reward issued TX-123456 done", ""⟩

/-- An oracle whose first external call fails with exit status `1` and
whose later calls succeed. -/
def failThenOk : ℕ → ProcResult :=
  fun i => if i = 0 then ⟨1, "", "insufficient balance"⟩ else txOkResult

/-- A record whose status is `pending`, hence outside the default
required-status set. -/
def pendingKNU : KNUEntry :=
  ⟨"KNU-K06-00-006", "K06", "dave", 3, 10, 0, "pending",
   ["evidence.md"], "bob", "2025-01-01T00:00:00Z"⟩

/- ------------------------------------------------------------------ -/
/- Helper lemmas about list sums.                                      -/
/- ------------------------------------------------------------------ -/

lemma sum_map_div (l : List ℚ) (t : ℚ) :
    (l.map (fun x => x / t)).sum = l.sum / t := by
  induction l with
  | nil => simp
  | cons x xs ih => simp [ih, add_div]

lemma sum_map_blend {α : Type*} (l : List α) (f g : α → ℚ) (a b : ℚ) :
    (l.map (fun x => a * f x + b * g x)).sum
      = a * (l.map f).sum + b * (l.map g).sum := by
  induction l with
  | nil => simp
  | cons x xs ih => simp [ih]; ring

/- ------------------------------------------------------------------ -/
/- Structure of the weight computation.                                -/
/- ------------------------------------------------------------------ -/

lemma effortNorm_eq (knus : List KNUEntry) :
    effortNorm knus = knus.map (eF knus) := by
  unfold effortNorm eF
  by_cases h : totalEffort knus = 0 <;> simp [h]

lemma impactNorm_eq (knus : List KNUEntry) (lam : ℚ) :
    impactNorm knus lam = knus.map (iF knus lam) := by
  unfold impactNorm iF
  by_cases h : totalImpact knus lam = 0
  · rw [if_pos h, List.map_map]
    exact List.map_congr_left (fun k _ => by simp [h, Function.comp])
  · rw [if_neg h, List.map_map]
    exact List.map_congr_left (fun k _ => by simp [h, Function.comp])

lemma effortNorm_sum (knus : List KNUEntry) :
    (effortNorm knus).sum = if totalEffort knus = 0 then 0 else 1 := by
  unfold effortNorm
  by_cases h : totalEffort knus = 0 <;> simp [h]
  rw [show (fun k : KNUEntry => k.E_pred / totalEffort knus)
      = (fun x => x / totalEffort knus) ∘ KNUEntry.E_pred from rfl,
    ← List.map_map, sum_map_div]
  exact div_self h

lemma impactNorm_sum (knus : List KNUEntry) (lam : ℚ) :
    (impactNorm knus lam).sum = if totalImpact knus lam = 0 then 0 else 1 := by
  unfold impactNorm
  by_cases h : totalImpact knus lam = 0
  · rw [if_pos h, if_pos h, List.map_map,
      show ((fun _ => (0 : ℚ)) ∘ effectiveImpact lam) = fun _ => (0 : ℚ)
        from rfl]
    simp
  · rw [if_neg h, if_neg h, sum_map_div]
    exact div_self h

lemma blendWeights_eq (knus : List KNUEntry) (a lam : ℚ) :
    blendWeights knus a lam
      = knus.map (fun k => a * eF knus k + (1 - a) * iF knus lam k) := by
  unfold blendWeights
  rw [effortNorm_eq, impactNorm_eq, List.zipWith_map_left,
    List.zipWith_map_right, List.zipWith_same]

lemma blendWeights_sum (knus : List KNUEntry) (a lam : ℚ) :
    (blendWeights knus a lam).sum
      = a * (if totalEffort knus = 0 then 0 else 1)
        + (1 - a) * (if totalImpact knus lam = 0 then 0 else 1) := by
  rw [blendWeights_eq, sum_map_blend, ← effortNorm_eq, ← impactNorm_eq,
    effortNorm_sum, impactNorm_sum]

lemma blendWeights_length (knus : List KNUEntry) (a lam : ℚ) :
    (blendWeights knus a lam).length = knus.length := by
  rw [blendWeights_eq, List.length_map]

lemma finalWeights_length (knus : List KNUEntry) (a lam : ℚ) :
    (finalWeights knus a lam).length = knus.length := by
  unfold finalWeights
  by_cases h : 0 < (blendWeights knus a lam).sum <;>
    simp [h, blendWeights_length]

lemma finalWeights_sum (knus : List KNUEntry) (a lam : ℚ)
    (h : 0 < (blendWeights knus a lam).sum) :
    (finalWeights knus a lam).sum = 1 := by
  unfold finalWeights
  simp only [if_pos h]
  rw [sum_map_div]
  exact div_self (ne_of_gt h)

lemma calculate_weights_snd (knus : List KNUEntry) (a lam : ℚ)
    (h : knus ≠ []) :
    (calculate_weights knus a lam).map Prod.snd = finalWeights knus a lam := by
  unfold calculate_weights
  rw [if_neg (by simp [h])]
  exact List.map_snd_zip _ _ (le_of_eq (finalWeights_length knus a lam))

lemma blendWeights_sum_pos (knus : List KNUEntry) (a lam : ℚ)
    (ha0 : 0 < a) (ha1 : a < 1)
    (h : ¬(totalEffort knus = 0 ∧ totalImpact knus lam = 0)) :
    0 < (blendWeights knus a lam).sum := by
  rw [blendWeights_sum]
  by_cases hE : totalEffort knus = 0 <;>
    by_cases hI : totalImpact knus lam = 0 <;>
      simp [hE, hI] at h ⊢ <;> linarith

/- ------------------------------------------------------------------ -/
/- Claim C2.                                                           -/
/- ------------------------------------------------------------------ -/

/-- C2 (counterexample): for the single eligible record `zeroKNU`, whose
total effort and total effective impact are both zero, the weights returned
by `calculate_weights` at the default parameters sum to `0`, which is not
within `1e-6` of `1.0` — refuting the claim that the weights of every
non-empty eligible list sum to 1.0 within tolerance. -/
theorem weights_sum_all_zero_batch :
    ¬ |(((calculate_weights [zeroKNU] (3/10) (1/2)).map Prod.snd).sum) - 1|
        ≤ 1/1000000 := by
  norm_num [calculate_weights, finalWeights, blendWeights, effortNorm,
    impactNorm, totalEffort, totalImpact, effectiveImpact, zeroKNU, List.zip]

/-- C2 (amended): for every non-empty list of eligible records whose total
effort and total effective impact are not both zero (and `0 < α < 1`, as
with the default `α = 0.30`), the weights returned by `calculate_weights`
sum to exactly `1`, hence within `1e-6` of `1.0`. -/
theorem calculate_weights_sum_one (knus : List KNUEntry) (a lam : ℚ)
    (ha0 : 0 < a) (ha1 : a < 1)
    (h : ¬(totalEffort knus = 0 ∧ totalImpact knus lam = 0)) :
    ((calculate_weights knus a lam).map Prod.snd).sum = 1 := by
  have hne : knus ≠ [] := by
    rintro rfl
    exact h ⟨by simp [totalEffort], by simp [totalImpact]⟩
  rw [calculate_weights_snd knus a lam hne,
    finalWeights_sum knus a lam (blendWeights_sum_pos knus a lam ha0 ha1 h)]

/-- Witness for C2 (amended) at the two-record batch with impacts 50 and
30. -/
theorem calculate_weights_sum_one_witness :
    (0 : ℚ) < 3/10 ∧ (3/10 : ℚ) < 1 ∧
    ¬(totalEffort [knuImpact50, knuImpact30] = 0 ∧
      totalImpact [knuImpact50, knuImpact30] (1/2) = 0) ∧
    ((calculate_weights [knuImpact50, knuImpact30] (3/10) (1/2)).map
      Prod.snd).sum = 1 :=
  ⟨by norm_num, by norm_num,
   by norm_num [totalEffort, totalImpact, effectiveImpact, knuImpact50,
     knuImpact30],
   calculate_weights_sum_one _ _ _ (by norm_num) (by norm_num)
     (by norm_num [totalEffort, totalImpact, effectiveImpact, knuImpact50,
       knuImpact30])⟩

/- ------------------------------------------------------------------ -/
/- Claim C4.                                                           -/
/- ------------------------------------------------------------------ -/

/-- C4: when the total effort of the batch is zero and the total effective
impact is positive, every weight returned by `calculate_weights` equals
exactly the record's normalized impact share
`effectiveImpact λ k / totalImpact` (for any `α < 1`, in particular the
default `α = 0.30`). -/
theorem weights_eq_impact_share (knus : List KNUEntry) (a lam : ℚ)
    (ha : a < 1) (hE : totalEffort knus = 0)
    (hI : 0 < totalImpact knus lam) :
    (calculate_weights knus a lam).map Prod.snd
      = knus.map (fun k => effectiveImpact lam k / totalImpact knus lam) := by
  have hne : knus ≠ [] := by
    rintro rfl
    simp [totalImpact] at hI
  have hIne : totalImpact knus lam ≠ 0 := ne_of_gt hI
  have hsum : (blendWeights knus a lam).sum = 1 - a := by
    rw [blendWeights_sum, if_pos hE, if_neg hIne]
    ring
  have hpos : 0 < (blendWeights knus a lam).sum := by
    rw [hsum]; linarith
  have h1a : (1 : ℚ) - a ≠ 0 := by
    intro h0; rw [sub_eq_zero] at h0; exact absurd h0.symm (ne_of_lt ha)
  rw [calculate_weights_snd knus a lam hne]
  unfold finalWeights
  rw [if_pos hpos, hsum, blendWeights_eq, List.map_map]
  refine List.map_congr_left (fun k _ => ?_)
  simp only [Function.comp, eF, iF, if_pos hE, if_neg hIne]
  rw [mul_zero, zero_add, mul_comm, mul_div_assoc, div_self h1a, mul_one]

/-- Witness for C4: primary impacts 50 and 30 with zero spillover and zero
effort yield weights `[5/8, 3/8]`, i.e. `0.625` and `0.375`. -/
theorem weights_eq_impact_share_witness :
    (3/10 : ℚ) < 1 ∧ totalEffort [knuImpact50, knuImpact30] = 0 ∧
    0 < totalImpact [knuImpact50, knuImpact30] (1/2) ∧
    (calculate_weights [knuImpact50, knuImpact30] (3/10) (1/2)).map Prod.snd
      = [knuImpact50, knuImpact30].map
          (fun k => effectiveImpact (1/2) k
            / totalImpact [knuImpact50, knuImpact30] (1/2)) ∧
    (calculate_weights [knuImpact50, knuImpact30] (3/10) (1/2)).map Prod.snd
      = [5/8, 3/8] :=
  ⟨by norm_num,
   by norm_num [totalEffort, knuImpact50, knuImpact30],
   by norm_num [totalImpact, effectiveImpact, knuImpact50, knuImpact30],
   weights_eq_impact_share _ _ _ (by norm_num)
     (by norm_num [totalEffort, knuImpact50, knuImpact30])
     (by norm_num [totalImpact, effectiveImpact, knuImpact50, knuImpact30]),
   by norm_num [calculate_weights, finalWeights, blendWeights, effortNorm,
     impactNorm, totalEffort, totalImpact, effectiveImpact, knuImpact50,
     knuImpact30, List.zip]⟩

/- ------------------------------------------------------------------ -/
/- Claim C8.                                                           -/
/- ------------------------------------------------------------------ -/

lemma pyInt_eq_floor {q : ℚ} (h : 0 ≤ q) : pyInt q = ⌊q⌋ := by
  unfold pyInt
  rw [if_pos h]

lemma calculate_weights_singleton (k : KNUEntry) (a lam : ℚ)
    (ha0 : 0 < a) (ha1 : a < 1)
    (hk : ¬(k.E_pred = 0 ∧ effectiveImpact lam k = 0)) :
    calculate_weights [k] a lam = [(k, 1)] := by
  have hTE : totalEffort [k] = k.E_pred := by simp [totalEffort]
  have hTI : totalImpact [k] lam = effectiveImpact lam k := by
    simp [totalImpact]
  have hsum : ((calculate_weights [k] a lam).map Prod.snd).sum = 1 := by
    refine calculate_weights_sum_one [k] a lam ha0 ha1 ?_
    rw [hTE, hTI]
    exact hk
  have hlen : (finalWeights [k] a lam).length = 1 := by
    rw [finalWeights_length]
    rfl
  obtain ⟨w, hw⟩ : ∃ w, finalWeights [k] a lam = [w] := by
    cases hfw : finalWeights [k] a lam with
    | nil => rw [hfw] at hlen; simp at hlen
    | cons x xs =>
      cases xs with
      | nil => exact ⟨x, rfl⟩
      | cons y ys => rw [hfw] at hlen; simp at hlen
  have hsnd := calculate_weights_snd [k] a lam (by simp)
  rw [hsnd, hw] at hsum
  simp at hsum
  unfold calculate_weights
  rw [if_neg (by simp), hw, hsum]
  rfl

/-- C8 (counterexample): a single eligible record whose effort, primary
impact and spillover are all zero receives weight `0`, not `1.0`, from
`calculate_weights` at the default parameters. -/
theorem single_zero_record_weight :
    (calculate_weights [zeroKNU] (3/10) (1/2)).map Prod.snd ≠ [1] := by
  norm_num [calculate_weights, finalWeights, blendWeights, effortNorm,
    impactNorm, totalEffort, totalImpact, effectiveImpact, zeroKNU, List.zip]

/-- C8 (amended): when exactly one eligible record survives filtering and
its effort and effective impact are not both zero (with `0 < α < 1`, as for
the defaults), `calculate_weights` assigns it weight `1.0`, and the
allocation loop of `distribute` allocates it the entire pool in integer
sub-units, `⌊pool_tt * 360⌋`. -/
theorem single_record_full_pool (k : KNUEntry) (a lam pool_tt : ℚ)
    (ha0 : 0 < a) (ha1 : a < 1) (hpool : 0 ≤ pool_tt)
    (hk : ¬(k.E_pred = 0 ∧ effectiveImpact lam k = 0)) :
    calculate_weights [k] a lam = [(k, 1)] ∧
    (allocCore (pyInt (pool_tt * 360)) 0 (calculate_weights [k] a lam)).map
        (fun p => p.2.2) = [⌊pool_tt * 360⌋] := by
  have h1 := calculate_weights_singleton k a lam ha0 ha1 hk
  refine ⟨h1, ?_⟩
  rw [h1]
  have hfl : pyInt (pool_tt * 360) = ⌊pool_tt * 360⌋ :=
    pyInt_eq_floor (mul_nonneg hpool (by norm_num))
  simp [allocCore, hfl]

/-- Witness for C8 (amended): the single record `knuSpill` at the default
parameters and a pool of `100.25` TT receives weight `1` and the whole
`⌊100.25 * 360⌋ = 36090` deg. -/
theorem single_record_full_pool_witness :
    (0 : ℚ) < 3/10 ∧ (3/10 : ℚ) < 1 ∧ (0 : ℚ) ≤ 401/4 ∧
    ¬(knuSpill.E_pred = 0 ∧ effectiveImpact (1/2) knuSpill = 0) ∧
    calculate_weights [knuSpill] (3/10) (1/2) = [(knuSpill, 1)] ∧
    (allocCore (pyInt ((401/4) * 360)) 0
        (calculate_weights [knuSpill] (3/10) (1/2))).map
      (fun p => p.2.2) = [⌊(401/4 : ℚ) * 360⌋] :=
  have h := single_record_full_pool knuSpill (3/10) (1/2) (401/4)
    (by norm_num) (by norm_num) (by norm_num)
    (by norm_num [knuSpill, effectiveImpact])
  ⟨by norm_num, by norm_num, by norm_num,
   by norm_num [knuSpill, effectiveImpact], h.1, h.2⟩

/- ------------------------------------------------------------------ -/
/- Claim C5.                                                           -/
/- ------------------------------------------------------------------ -/

/-- C5: for two records identical in effort and primary impact, one with
positive spillover (`k1`) and one with zero spillover (`k2`),
`calculate_weights` gives them equal weights at `λ = 0`, and at any
`λ > 0` the weight of `k1` is strictly greater than the weight of `k2`
(stated for non-negative primary impact and `α < 1`, which covers the
default parameters). -/
theorem spillover_strict_gain (k1 k2 : KNUEntry) (a lam : ℚ)
    (hE : k1.E_pred = k2.E_pred) (hp : k1.dR_primary = k2.dR_primary)
    (hs1 : 0 < k1.dR_adj_sum) (hs2 : k2.dR_adj_sum = 0)
    (hp0 : 0 ≤ k2.dR_primary) (hlam : 0 < lam) (ha : a < 1) :
    ((calculate_weights [k1, k2] a 0).map Prod.snd).getD 0 0
      = ((calculate_weights [k1, k2] a 0).map Prod.snd).getD 1 0 ∧
    ((calculate_weights [k1, k2] a lam).map Prod.snd).getD 1 0
      < ((calculate_weights [k1, k2] a lam).map Prod.snd).getD 0 0 := by
  have hne : ([k1, k2] : List KNUEntry) ≠ [] := by simp
  have heF : eF [k1, k2] k1 = eF [k1, k2] k2 := by
    unfold eF
    rw [hE]
  constructor
  · -- λ = 0: the two records have identical effort and identical impact.
    have hI10 : effectiveImpact 0 k1 = k2.dR_primary := by
      unfold effectiveImpact
      rw [hp]
      ring
    have hI20 : effectiveImpact 0 k2 = k2.dR_primary := by
      unfold effectiveImpact
      ring
    have hiF0 : iF [k1, k2] 0 k1 = iF [k1, k2] 0 k2 := by
      unfold iF
      rw [hI10, hI20]
    rw [calculate_weights_snd [k1, k2] a 0 hne]
    unfold finalWeights
    by_cases hS0 : 0 < (blendWeights [k1, k2] a 0).sum
    · rw [if_pos hS0, blendWeights_eq]
      simp only [List.map_cons, List.map_nil, List.getD_cons_zero,
        List.getD_cons_succ]
      rw [heF, hiF0]
    · rw [if_neg hS0, blendWeights_eq]
      simp only [List.map_cons, List.map_nil, List.getD_cons_zero,
        List.getD_cons_succ]
      rw [heF, hiF0]
  · -- λ > 0: k1's normalized impact share strictly exceeds k2's.
    have hI1 : effectiveImpact lam k1
        = k2.dR_primary + lam * k1.dR_adj_sum := by
      unfold effectiveImpact
      rw [hp]
    have hI2 : effectiveImpact lam k2 = k2.dR_primary := by
      unfold effectiveImpact
      rw [hs2]
      ring
    have hT : totalImpact [k1, k2] lam
        = 2 * k2.dR_primary + lam * k1.dR_adj_sum := by
      simp [totalImpact, hI1, hI2]
      ring
    have hTpos : 0 < totalImpact [k1, k2] lam := by
      rw [hT]
      nlinarith [mul_pos hlam hs1]
    have hIlt : effectiveImpact lam k2 < effectiveImpact lam k1 := by
      rw [hI1, hI2]
      nlinarith [mul_pos hlam hs1]
    have hiFlt : iF [k1, k2] lam k2 < iF [k1, k2] lam k1 := by
      unfold iF
      simp only [if_neg (ne_of_gt hTpos)]
      exact (div_lt_div_iff_of_pos_right hTpos).mpr hIlt
    have ha' : (0 : ℚ) < 1 - a := by linarith
    have hg : a * eF [k1, k2] k2 + (1 - a) * iF [k1, k2] lam k2
        < a * eF [k1, k2] k1 + (1 - a) * iF [k1, k2] lam k1 := by
      rw [heF]
      exact add_lt_add_left (mul_lt_mul_of_pos_left hiFlt ha') _
    have hS : 0 < (blendWeights [k1, k2] a lam).sum := by
      rw [blendWeights_sum, if_neg (ne_of_gt hTpos)]
      by_cases hTE : totalEffort [k1, k2] = 0
      all_goals simp [hTE]
      all_goals linarith
    have hS' : 0 < (List.map
        (fun k => a * eF [k1, k2] k + (1 - a) * iF [k1, k2] lam k)
        [k1, k2]).sum := by
      rw [← blendWeights_eq]
      exact hS
    rw [calculate_weights_snd [k1, k2] a lam hne]
    unfold finalWeights
    rw [if_pos hS, blendWeights_eq]
    simp only [List.map_cons, List.map_nil, List.getD_cons_zero,
      List.getD_cons_succ]
    refine (div_lt_div_iff_of_pos_right ?_).mpr hg
    simpa using hS'

/-- Witness for C5: `knuSpill` and `knuNoSpill` differ only in spillover
(20 versus 0); their weights are equal at `λ = 0` and `knuSpill`'s weight
is strictly larger at `λ = 1/2`. -/
theorem spillover_strict_gain_witness :
    knuSpill.E_pred = knuNoSpill.E_pred ∧
    knuSpill.dR_primary = knuNoSpill.dR_primary ∧
    0 < knuSpill.dR_adj_sum ∧ knuNoSpill.dR_adj_sum = 0 ∧
    (0 : ℚ) ≤ knuNoSpill.dR_primary ∧ (0 : ℚ) < 1/2 ∧ (3/10 : ℚ) < 1 ∧
    ((calculate_weights [knuSpill, knuNoSpill] (3/10) 0).map
        Prod.snd).getD 0 0
      = ((calculate_weights [knuSpill, knuNoSpill] (3/10) 0).map
        Prod.snd).getD 1 0 ∧
    ((calculate_weights [knuSpill, knuNoSpill] (3/10) (1/2)).map
        Prod.snd).getD 1 0
      < ((calculate_weights [knuSpill, knuNoSpill] (3/10) (1/2)).map
        Prod.snd).getD 0 0 :=
  have h := spillover_strict_gain knuSpill knuNoSpill (3/10) (1/2)
    (by norm_num [knuSpill, knuNoSpill])
    (by norm_num [knuSpill, knuNoSpill])
    (by norm_num [knuSpill]) (by norm_num [knuNoSpill])
    (by norm_num [knuNoSpill]) (by norm_num) (by norm_num)
  ⟨by norm_num [knuSpill, knuNoSpill], by norm_num [knuSpill, knuNoSpill],
   by norm_num [knuSpill], by norm_num [knuNoSpill],
   by norm_num [knuNoSpill], by norm_num, by norm_num, h.1, h.2⟩

/- ------------------------------------------------------------------ -/
/- Claims C1 and C10: the allocation arithmetic.                       -/
/- ------------------------------------------------------------------ -/

lemma sum_map_mul {α : Type*} (l : List α) (c : ℚ) (f : α → ℚ) :
    (l.map (fun x => c * f x)).sum = c * (l.map f).sum := by
  induction l with
  | nil => simp
  | cons x xs ih => simp [ih]; ring

lemma allocCore_cons_of_ne_nil (pd r : ℤ) (k : KNUEntry) (w : ℚ)
    (l : List (KNUEntry × ℚ)) (h : l ≠ []) :
    allocCore pd r ((k, w) :: l)
      = (k, w, pyInt ((pd : ℚ) * w)) ::
        allocCore pd (r + pyInt ((pd : ℚ) * w)) l := by
  cases l with
  | nil => exact absurd rfl h
  | cons p rest => rfl

/-- The allocation list over `ws ++ [x]`: every entry of `ws` gets the
truncated share, the final entry `x` gets the pool minus the running
total. -/
lemma allocCore_concat (pd : ℤ) :
    ∀ (ws : List (KNUEntry × ℚ)) (x : KNUEntry × ℚ) (r : ℤ),
      allocCore pd r (ws ++ [x])
        = ws.map (fun p => (p.1, p.2, pyInt ((pd : ℚ) * p.2)))
          ++ [(x.1, x.2,
               pd - r - (ws.map (fun p => pyInt ((pd : ℚ) * p.2))).sum)] := by
  intro ws
  induction ws with
  | nil =>
    intro x r
    obtain ⟨k, w⟩ := x
    simp [allocCore]
  | cons y ws ih =>
    intro x r
    obtain ⟨k, w⟩ := y
    rw [List.cons_append,
      allocCore_cons_of_ne_nil pd r k w (ws ++ [x]) (by simp), ih]
    have harith : pd - (r + pyInt ((pd : ℚ) * w))
        - (ws.map (fun p => pyInt ((pd : ℚ) * p.2))).sum
        = pd - r - (pyInt ((pd : ℚ) * w)
            + (ws.map (fun p => pyInt ((pd : ℚ) * p.2))).sum) := by
      ring
    simp only [List.map_cons, List.sum_cons, List.cons_append, harith]

/-- C1: for a non-negative pool size and a non-empty weighted list with
non-negative weights, the integer sub-unit amounts computed by the
allocation loop of `distribute` sum exactly to `⌊pool_tt * 360⌋`; every
record except the last is allocated `⌊pool_deg * weight⌋` and the last
receives the remainder, so no sub-unit is created or lost. -/
theorem allocations_exact_sum (pool_tt : ℚ) (ws : List (KNUEntry × ℚ))
    (hpool : 0 ≤ pool_tt) (hne : ws ≠ [])
    (hw : ∀ p ∈ ws, 0 ≤ p.2) :
    pyInt (pool_tt * 360) = ⌊pool_tt * 360⌋ ∧
    ((allocCore (pyInt (pool_tt * 360)) 0 ws).map (fun p => p.2.2)).sum
      = ⌊pool_tt * 360⌋ ∧
    ((allocCore (pyInt (pool_tt * 360)) 0 ws).map (fun p => p.2.2)).dropLast
      = ws.dropLast.map
          (fun p => ⌊((pyInt (pool_tt * 360) : ℤ) : ℚ) * p.2⌋) := by
  have hfl : pyInt (pool_tt * 360) = ⌊pool_tt * 360⌋ :=
    pyInt_eq_floor (mul_nonneg hpool (by norm_num))
  have hpd0 : (0 : ℤ) ≤ pyInt (pool_tt * 360) := by
    rw [hfl]
    exact Int.floor_nonneg.mpr (mul_nonneg hpool (by norm_num))
  have key := allocCore_concat (pyInt (pool_tt * 360)) ws.dropLast
    (ws.getLast hne) 0
  rw [List.dropLast_concat_getLast hne] at key
  refine ⟨hfl, ?_, ?_⟩
  · rw [key]
    simp only [List.map_append, List.sum_append, List.map_map,
      List.map_cons, List.map_nil, List.sum_cons, List.sum_nil]
    have hcomp :
        ((fun p : KNUEntry × ℚ × ℤ => p.2.2) ∘
          (fun p : KNUEntry × ℚ => (p.1, p.2, pyInt ((pyInt (pool_tt * 360) : ℚ) * p.2))))
        = fun p : KNUEntry × ℚ => pyInt ((pyInt (pool_tt * 360) : ℚ) * p.2) := rfl
    rw [hcomp, hfl]
    ring
  · rw [key, List.map_append]
    simp only [List.map_cons, List.map_nil]
    rw [List.dropLast_concat, List.map_map]
    refine List.map_congr_left (fun p hp => ?_)
    have hmem : p ∈ ws := List.dropLast_subset ws hp
    have : (0 : ℚ) ≤ ((pyInt (pool_tt * 360) : ℤ) : ℚ) * p.2 :=
      mul_nonneg (by exact_mod_cast hpd0) (hw p hmem)
    show pyInt ((pyInt (pool_tt * 360) : ℚ) * p.2) = _
    rw [pyInt_eq_floor this]

/-- Witness for C1: pool `10.5` TT and weights `1/3`, `2/3`; the deg
amounts are `[1260, 2520]`, summing to `⌊10.5 * 360⌋ = 3780`. -/
theorem allocations_exact_sum_witness :
    (0 : ℚ) ≤ 21/2 ∧ ([(knuSpill, (1/3 : ℚ)), (knuNoSpill, 2/3)] ≠ []) ∧
    (∀ p ∈ [(knuSpill, (1/3 : ℚ)), (knuNoSpill, 2/3)], 0 ≤ p.2) ∧
    ((allocCore (pyInt ((21/2) * 360)) 0
        [(knuSpill, (1/3 : ℚ)), (knuNoSpill, 2/3)]).map
      (fun p => p.2.2)).sum = ⌊(21/2 : ℚ) * 360⌋ :=
  ⟨by norm_num, by simp, by
    intro p hp
    simp at hp
    rcases hp with h | h <;> rw [h] <;> norm_num,
   (allocations_exact_sum (21/2) [(knuSpill, 1/3), (knuNoSpill, 2/3)]
     (by norm_num) (by simp)
     (by
       intro p hp
       simp at hp
       rcases hp with h | h <;> rw [h] <;> norm_num)).2.1⟩

/-- C10: with a non-negative pool, non-negative weights summing to at most
one, every integer sub-unit amount computed by the allocation loop is
non-negative, including the last record's remainder allocation. -/
theorem allocations_nonneg (pool_tt : ℚ) (ws : List (KNUEntry × ℚ))
    (hpool : 0 ≤ pool_tt) (hne : ws ≠ [])
    (hw : ∀ p ∈ ws, 0 ≤ p.2)
    (hsum : (ws.map (fun p => p.2)).sum ≤ 1) :
    ∀ a ∈ (allocCore (pyInt (pool_tt * 360)) 0 ws).map (fun p => p.2.2),
      0 ≤ a := by
  have hfl : pyInt (pool_tt * 360) = ⌊pool_tt * 360⌋ :=
    pyInt_eq_floor (mul_nonneg hpool (by norm_num))
  have hpd0 : (0 : ℤ) ≤ pyInt (pool_tt * 360) := by
    rw [hfl]
    exact Int.floor_nonneg.mpr (mul_nonneg hpool (by norm_num))
  set pd : ℤ := pyInt (pool_tt * 360) with hpd
  have hpdq : (0 : ℚ) ≤ (pd : ℚ) := by exact_mod_cast hpd0
  have key := allocCore_concat pd ws.dropLast (ws.getLast hne) 0
  rw [List.dropLast_concat_getLast hne] at key
  -- each truncated share is the floor of a non-negative number
  have hflr : ∀ p ∈ ws.dropLast,
      pyInt ((pd : ℚ) * p.2) = ⌊(pd : ℚ) * p.2⌋ ∧ 0 ≤ pyInt ((pd : ℚ) * p.2) := by
    intro p hp
    have hmem : p ∈ ws := List.dropLast_subset ws hp
    have hnn : (0 : ℚ) ≤ (pd : ℚ) * p.2 := mul_nonneg hpdq (hw p hmem)
    exact ⟨pyInt_eq_floor hnn, by
      rw [pyInt_eq_floor hnn]
      exact Int.floor_nonneg.mpr hnn⟩
  -- the truncated shares of the non-last records sum to at most the pool
  have hS : (ws.dropLast.map (fun p => pyInt ((pd : ℚ) * p.2))).sum ≤ pd := by
    have hcast : ((ws.dropLast.map (fun p => pyInt ((pd : ℚ) * p.2))).sum : ℚ)
        = (ws.dropLast.map (fun p => (pyInt ((pd : ℚ) * p.2) : ℚ))).sum := by
      rw [Int.cast_list_sum, List.map_map]
      rfl
    have hle1 : (ws.dropLast.map (fun p => (pyInt ((pd : ℚ) * p.2) : ℚ))).sum
        ≤ (ws.dropLast.map (fun p => (pd : ℚ) * p.2)).sum := by
      refine List.sum_le_sum (fun p hp => ?_)
      rw [(hflr p hp).1]
      exact Int.floor_le _
    have hle2 : (ws.dropLast.map (fun p => (pd : ℚ) * p.2)).sum ≤ (pd : ℚ) := by
      rw [sum_map_mul]
      have hsplit : (ws.map (fun p => p.2)).sum
          = (ws.dropLast.map (fun p => p.2)).sum + (ws.getLast hne).2 := by
        conv_lhs => rw [← List.dropLast_concat_getLast hne]
        simp
      have hlast : 0 ≤ (ws.getLast hne).2 := hw _ (List.getLast_mem hne)
      have hdl : (ws.dropLast.map (fun p => p.2)).sum ≤ 1 := by
        rw [hsplit] at hsum
        linarith
      calc (pd : ℚ) * (ws.dropLast.map (fun p => p.2)).sum
          ≤ (pd : ℚ) * 1 := mul_le_mul_of_nonneg_left hdl hpdq
        _ = (pd : ℚ) := mul_one _
    have : ((ws.dropLast.map (fun p => pyInt ((pd : ℚ) * p.2))).sum : ℚ)
        ≤ (pd : ℚ) := by
      rw [hcast]
      exact le_trans hle1 hle2
    exact_mod_cast this
  intro a ha
  rw [key] at ha
  simp only [List.map_append, List.map_map, List.map_cons, List.map_nil,
    List.mem_append, List.mem_cons, List.not_mem_nil, or_false] at ha
  rcases ha with ha | ha
  · obtain ⟨p, hp, hpa⟩ := List.exists_of_mem_map ha
    have := (hflr p hp).2
    rw [← hpa]
    exact this
  · rw [ha]
    omega

/-- Witness for C10: pool `10.5` TT and weights `1/3`, `1/3` (summing to
`2/3 ≤ 1`); both allocations are non-negative. -/
theorem allocations_nonneg_witness :
    (0 : ℚ) ≤ 21/2 ∧
    (([(knuSpill, (1/3 : ℚ)), (knuNoSpill, 1/3)].map
        (fun p => p.2)).sum ≤ 1) ∧
    ∀ a ∈ (allocCore (pyInt ((21/2) * 360)) 0
        [(knuSpill, (1/3 : ℚ)), (knuNoSpill, 1/3)]).map (fun p => p.2.2),
      0 ≤ a :=
  ⟨by norm_num, by norm_num,
   allocations_nonneg (21/2) [(knuSpill, 1/3), (knuNoSpill, 1/3)]
     (by norm_num) (by simp)
     (by
       intro p hp
       simp at hp
       rcases hp with h | h <;> rw [h] <;> norm_num)
     (by norm_num)⟩

/- ------------------------------------------------------------------ -/
/- Claim C6.                                                           -/
/- ------------------------------------------------------------------ -/

/-- C6: `validate_eligibility` applies its rules in order with the first
failure winning: a disallowed status is rejected with a reason naming the
offending status and the allowed set; otherwise an empty artifact list
(when artifacts are required) is rejected with the no-artifacts reason;
otherwise a missing validator, then a missing validation timestamp (when
validation is required) are rejected with reasons naming what is missing;
a record passing all checks is accepted with an empty reason.  The
embedding is a pure function of the policy and the record, mirroring the
side-effect-free source. -/
theorem validate_eligibility_spec (elig : Eligibility) (k : KNUEntry) :
    (k.status ∉ elig.required_status →
      validate_eligibility elig k
        = (false, "Status '" ++ k.status ++ "' not in required: "
            ++ pyListRepr elig.required_status)) ∧
    (k.status ∈ elig.required_status → elig.require_artifacts = true →
      k.artifacts = [] →
      validate_eligibility elig k
        = (false, "No artifacts provided (required)")) ∧
    (k.status ∈ elig.required_status →
      (elig.require_artifacts = true → k.artifacts ≠ []) →
      elig.require_validation = true → k.validated_by = "" →
      validate_eligibility elig k
        = (false, "No validator specified (required)")) ∧
    (k.status ∈ elig.required_status →
      (elig.require_artifacts = true → k.artifacts ≠ []) →
      elig.require_validation = true → k.validated_by ≠ "" →
      k.validated_at = "" →
      validate_eligibility elig k
        = (false, "No validation timestamp (required)")) ∧
    (k.status ∈ elig.required_status →
      (elig.require_artifacts = true → k.artifacts ≠ []) →
      (elig.require_validation = true →
        k.validated_by ≠ "" ∧ k.validated_at ≠ "") →
      validate_eligibility elig k = (true, "")) := by
  refine ⟨fun h1 => ?_, fun h1 h2 h3 => ?_, fun h1 h2 h3 h4 => ?_,
    fun h1 h2 h3 h4 h5 => ?_, fun h1 h2 h3 => ?_⟩
  · unfold validate_eligibility
    rw [if_pos h1]
  · unfold validate_eligibility
    rw [if_neg (not_not_intro h1), if_pos ⟨h2, h3⟩]
  · unfold validate_eligibility
    rw [if_neg (not_not_intro h1), if_neg (fun hc => h2 hc.1 hc.2),
      if_pos ⟨h3, h4⟩]
  · unfold validate_eligibility
    rw [if_neg (not_not_intro h1), if_neg (fun hc => h2 hc.1 hc.2),
      if_neg (fun hc => h4 hc.2), if_pos ⟨h3, h5⟩]
  · unfold validate_eligibility
    rw [if_neg (not_not_intro h1), if_neg (fun hc => h2 hc.1 hc.2),
      if_neg (fun hc => (h3 hc.1).1 hc.2),
      if_neg (fun hc => (h3 hc.1).2 hc.2)]

/-- Witness for C6: under the default policy, `pendingKNU` is rejected with
the status reason and `knuSpill` is accepted with an empty reason. -/
theorem validate_eligibility_spec_witness :
    validate_eligibility defaultEligibility pendingKNU
      = (false, "Status 'pending' not in required: ['accepted', 'merged']")
    ∧ validate_eligibility defaultEligibility knuSpill = (true, "") :=
  ⟨((validate_eligibility_spec defaultEligibility pendingKNU).1
      (by decide)).trans (by decide),
   (validate_eligibility_spec defaultEligibility knuSpill).2.2.2.2
     (by decide) (fun _ => by decide) (fun _ => by decide)⟩

/- ------------------------------------------------------------------ -/
/- Claim C7.                                                           -/
/- ------------------------------------------------------------------ -/

lemma matchTxAt_true_iff (l : List Char) :
    matchTxAt l = true ↔
      ∃ ds rest, l = 'T' :: 'X' :: '-' :: (ds ++ rest) ∧ ds.length = 6 ∧
        ∀ c ∈ ds, c.isDigit := by
  constructor
  · intro h
    match l, h with
    | c1 :: c2 :: c3 :: rest, h =>
      simp only [matchTxAt, Bool.and_eq_true, beq_iff_eq,
        List.all_eq_true] at h
      obtain ⟨⟨⟨⟨h1, h2⟩, h3⟩, h4⟩, h5⟩ := h
      refine ⟨rest.take 6, rest.drop 6, ?_, h4, h5⟩
      rw [h1, h2, h3, List.take_append_drop]
  · rintro ⟨ds, rest, rfl, hlen, hdig⟩
    simp only [matchTxAt, Bool.and_eq_true, beq_iff_eq,
      List.all_eq_true]
    rw [List.take_left' hlen]
    simp [hlen]
    exact hdig

lemma searchTx_isSome_iff (cs : List Char) :
    (searchTx cs).isSome = true ↔ containsTx cs := by
  induction cs with
  | nil =>
    simp only [searchTx, Option.isSome_none, Bool.false_eq_true,
      false_iff]
    rintro ⟨pre, ds, post, habs, hlen, hdig⟩
    exact absurd habs.symm (by simp)
  | cons c cs ih =>
    by_cases h : matchTxAt (c :: cs) = true
    · simp only [searchTx, h, if_true, Option.isSome_some, true_iff]
      obtain ⟨ds, rest, heq, hlen, hdig⟩ := matchTxAt_true_iff (c :: cs) |>.mp h
      exact ⟨[], ds, rest, heq, hlen, hdig⟩
    · have hsearch : searchTx (c :: cs) = searchTx cs := by
        simp [searchTx, h]
      rw [hsearch, ih]
      constructor
      · rintro ⟨pre, ds, post, rfl, hlen, hdig⟩
        exact ⟨c :: pre, ds, post, rfl, hlen, hdig⟩
      · rintro ⟨pre, ds, post, heq, hlen, hdig⟩
        cases pre with
        | nil =>
          exact absurd (matchTxAt_true_iff (c :: cs) |>.mpr
            ⟨ds, post, by simpa using heq, hlen, hdig⟩) h
        | cons p pre =>
          rw [List.cons_append] at heq
          injection heq with hc hcs
          exact ⟨pre, ds, post, hcs, hlen, hdig⟩

/-- C7: `execute_reward` returns a transaction identifier exactly when the
external call exits with status zero and its captured output contains a
substring matching `TX-` followed by six digits; in that case the returned
identifier is the leftmost match found by the search, and in every other
case (non-zero exit status, or zero exit status with no matching
identifier in the output) it raises a distribution error instead of
returning. -/
theorem execute_reward_spec (owner : String) (r : ProcResult) :
    ((∃ t, execute_reward owner r = Except.ok t)
      ↔ (r.returncode = 0 ∧ containsTx r.stdout.data)) ∧
    (∀ t, execute_reward owner r = Except.ok t →
      searchTx r.stdout.data = some t.data) ∧
    ((r.returncode ≠ 0 ∨ ¬containsTx r.stdout.data) →
      ∃ msg, execute_reward owner r = Except.error msg) := by
  by_cases hrc : r.returncode ≠ 0
  · have hrun : execute_reward owner r
        = Except.error ("TT reward failed for " ++ owner ++ ": "
            ++ r.stderr) := by
      unfold execute_reward
      rw [if_pos hrc]
    refine ⟨?_, ?_, ?_⟩
    · rw [hrun]
      constructor
      · rintro ⟨t, ht⟩
        exact absurd ht (by simp)
      · rintro ⟨h0, _⟩
        exact (hrc h0).elim
    · intro t ht
      rw [hrun] at ht
      exact absurd ht (by simp)
    · intro _
      exact ⟨_, hrun⟩
  · push_neg at hrc
    cases hs : searchTx r.stdout.data with
    | none =>
      have hrun : execute_reward owner r
          = Except.error ("Could not parse transaction ID from output: "
              ++ r.stdout) := by
        unfold execute_reward
        rw [if_neg (by simp [hrc]), hs]
      have hnc : ¬containsTx r.stdout.data := by
        rw [← searchTx_isSome_iff, hs]
        simp
      refine ⟨?_, ?_, ?_⟩
      · constructor
        · rintro ⟨t, ht⟩
          rw [hrun] at ht
          exact absurd ht (by simp)
        · rintro ⟨_, hc⟩
          exact absurd hc hnc
      · intro t ht
        rw [hrun] at ht
        exact absurd ht (by simp)
      · intro _
        exact ⟨_, hrun⟩
    | some tx =>
      have hrun : execute_reward owner r = Except.ok (String.mk tx) := by
        unfold execute_reward
        rw [if_neg (by simp [hrc]), hs]
      have hc : containsTx r.stdout.data := by
        rw [← searchTx_isSome_iff, hs]
        rfl
      refine ⟨?_, ?_, ?_⟩
      · exact ⟨fun _ => ⟨hrc, hc⟩, fun _ => ⟨String.mk tx, hrun⟩⟩
      · intro t ht
        rw [hrun] at ht
        injection ht with ht
        subst ht
        simp [hs]
      · rintro (h0 | hnc)
        · exact absurd hrc h0
        · exact absurd hc hnc

/-- Witness for C7: exit status `0` with output
`"Reward issued TX-123456 done"` yields a transaction identifier. -/
theorem execute_reward_spec_witness :
    (txOkResult.returncode = 0 ∧ containsTx txOkResult.stdout.data) ∧
    ∃ t, execute_reward "alice" txOkResult = Except.ok t :=
  have hc : containsTx txOkResult.stdout.data :=
    ⟨"Reward issued ".data, ['1', '2', '3', '4', '5', '6'], " done".data,
     by decide, by decide, by decide⟩
  ⟨⟨rfl, hc⟩, (execute_reward_spec "alice" txOkResult).1.mpr ⟨rfl, hc⟩⟩

/- ------------------------------------------------------------------ -/
/- Claims C3 and C9: the execution loop.                               -/
/- ------------------------------------------------------------------ -/

/-- One unfolding step of the loop in dry-run mode over a list with at
least two entries. -/
lemma distLoop_dry_cons_step (pd : ℤ) (knot : String)
    (oracle : ℕ → ProcResult) (ts : ℕ → String) (i : ℕ) (r : ℤ)
    (knu : KNUEntry) (w : ℚ) (p : KNUEntry × ℚ)
    (rest : List (KNUEntry × ℚ)) (ledger : List LedgerRow) :
    distLoop pd knot oracle ts true i r ((knu, w) :: p :: rest) ledger
      = (⟨knu.knu_id, knu.owner, w,
           ((pyInt ((pd : ℚ) * w) : ℤ) : ℚ) / 360,
           pyInt ((pd : ℚ) * w), ""⟩ ::
          (distLoop pd knot oracle ts true (i + 1)
            (r + pyInt ((pd : ℚ) * w)) (p :: rest) ledger).1,
         (distLoop pd knot oracle ts true (i + 1)
            (r + pyInt ((pd : ℚ) * w)) (p :: rest) ledger).2) := rfl

/-- Dry-run mode of the `distribute` loop computes exactly the pure
allocation list with empty transaction ids and does not touch the
ledger. -/
lemma distLoop_dry_eq (pd : ℤ) (knot : String) (oracle : ℕ → ProcResult)
    (ts : ℕ → String) :
    ∀ (ws : List (KNUEntry × ℚ)) (i : ℕ) (r : ℤ)
      (ledger : List LedgerRow),
      distLoop pd knot oracle ts true i r ws ledger
        = ((allocCore pd r ws).map toDryDist, ledger) := by
  intro ws
  induction ws with
  | nil =>
    intro i r ledger
    simp [distLoop, allocCore]
  | cons hd tl ih =>
    intro i r ledger
    obtain ⟨knu, w⟩ := hd
    cases tl with
    | nil => simp [distLoop, allocCore, toDryDist]
    | cons p rest =>
      rw [distLoop_dry_cons_step, ih,
        allocCore_cons_of_ne_nil pd r knu w (p :: rest) (by simp)]
      rfl

/-- One unfolding step of the loop in live mode over a list with at least
two entries, branching on the external call's outcome. -/
lemma distLoop_live_cons_step (pd : ℤ) (knot : String)
    (oracle : ℕ → ProcResult) (ts : ℕ → String) (i : ℕ) (r : ℤ)
    (knu : KNUEntry) (w : ℚ) (p : KNUEntry × ℚ)
    (rest : List (KNUEntry × ℚ)) (ledger : List LedgerRow) :
    distLoop pd knot oracle ts false i r ((knu, w) :: p :: rest) ledger
      = match execute_reward knu.owner (oracle i) with
        | Except.error _ =>
          distLoop pd knot oracle ts false (i + 1)
            (r + pyInt ((pd : ℚ) * w)) (p :: rest) ledger
        | Except.ok tx =>
          (⟨knu.knu_id, knu.owner, w,
             ((pyInt ((pd : ℚ) * w) : ℤ) : ℚ) / 360,
             pyInt ((pd : ℚ) * w), tx⟩ ::
            (distLoop pd knot oracle ts false (i + 1)
              (r + pyInt ((pd : ℚ) * w)) (p :: rest)
              (ledger ++
                [⟨ts i, knot, knu.knu_id, knu.owner, knu.E_pred,
                  knu.dR_primary, knu.dR_adj_sum, w,
                  ((pyInt ((pd : ℚ) * w) : ℤ) : ℚ) / 360,
                  pyInt ((pd : ℚ) * w), tx, knu.validated_by⟩])).1,
           (distLoop pd knot oracle ts false (i + 1)
              (r + pyInt ((pd : ℚ) * w)) (p :: rest)
              (ledger ++
                [⟨ts i, knot, knu.knu_id, knu.owner, knu.E_pred,
                  knu.dR_primary, knu.dR_adj_sum, w,
                  ((pyInt ((pd : ℚ) * w) : ℤ) : ℚ) / 360,
                  pyInt ((pd : ℚ) * w), tx, knu.validated_by⟩])).2) := rfl

/-- Live mode of the `distribute` loop: the returned list keeps exactly the
allocations whose external call succeeds, and the ledger is the input
ledger with the rows of the successful calls appended. -/
lemma distLoop_live_eq (pd : ℤ) (knot : String) (oracle : ℕ → ProcResult)
    (ts : ℕ → String) :
    ∀ (ws : List (KNUEntry × ℚ)) (i : ℕ) (r : ℤ)
      (ledger : List LedgerRow),
      distLoop pd knot oracle ts false i r ws ledger
        = (liveSelect oracle i (allocCore pd r ws),
           ledger ++ liveRows oracle ts knot i (allocCore pd r ws)) := by
  intro ws
  induction ws with
  | nil =>
    intro i r ledger
    simp [distLoop, allocCore, liveSelect, liveRows]
  | cons hd tl ih =>
    intro i r ledger
    obtain ⟨knu, w⟩ := hd
    cases tl with
    | nil =>
      cases h : execute_reward knu.owner (oracle i) with
      | error e => simp [distLoop, allocCore, liveSelect, liveRows, h]
      | ok tx => simp [distLoop, allocCore, liveSelect, liveRows, h]
    | cons p rest =>
      cases h : execute_reward knu.owner (oracle i) with
      | error e =>
        have hred : distLoop pd knot oracle ts false i r
            ((knu, w) :: p :: rest) ledger
            = distLoop pd knot oracle ts false (i + 1)
                (r + pyInt ((pd : ℚ) * w)) (p :: rest) ledger := by
          rw [distLoop_live_cons_step, h]
        rw [hred, ih,
          allocCore_cons_of_ne_nil pd r knu w (p :: rest) (by simp)]
        simp only [liveSelect, liveRows, h]
      | ok tx =>
        have hred : distLoop pd knot oracle ts false i r
            ((knu, w) :: p :: rest) ledger
            = (⟨knu.knu_id, knu.owner, w,
                 ((pyInt ((pd : ℚ) * w) : ℤ) : ℚ) / 360,
                 pyInt ((pd : ℚ) * w), tx⟩ ::
                (distLoop pd knot oracle ts false (i + 1)
                  (r + pyInt ((pd : ℚ) * w)) (p :: rest)
                  (ledger ++
                    [⟨ts i, knot, knu.knu_id, knu.owner, knu.E_pred,
                      knu.dR_primary, knu.dR_adj_sum, w,
                      ((pyInt ((pd : ℚ) * w) : ℤ) : ℚ) / 360,
                      pyInt ((pd : ℚ) * w), tx, knu.validated_by⟩])).1,
               (distLoop pd knot oracle ts false (i + 1)
                  (r + pyInt ((pd : ℚ) * w)) (p :: rest)
                  (ledger ++
                    [⟨ts i, knot, knu.knu_id, knu.owner, knu.E_pred,
                      knu.dR_primary, knu.dR_adj_sum, w,
                      ((pyInt ((pd : ℚ) * w) : ℤ) : ℚ) / 360,
                      pyInt ((pd : ℚ) * w), tx, knu.validated_by⟩])).2) := by
          rw [distLoop_live_cons_step, h]
        rw [hred, ih,
          allocCore_cons_of_ne_nil pd r knu w (p :: rest) (by simp)]
        simp only [liveSelect, liveRows, h, List.append_assoc,
          List.singleton_append]

/-- Stripping the transaction ids from a live run's output yields a
sublist of the dry-run output: live mode only removes failed entries and
fills in transaction ids, never changing weight or amounts. -/
lemma liveSelect_strip_sublist (oracle : ℕ → ProcResult) :
    ∀ (core : List (KNUEntry × ℚ × ℤ)) (i : ℕ),
      List.Sublist
        ((liveSelect oracle i core).map (fun d => { d with tx_id := "" }))
        (core.map toDryDist) := by
  intro core
  induction core with
  | nil =>
    intro i
    simp [liveSelect]
  | cons hd tl ih =>
    intro i
    obtain ⟨knu, w, a⟩ := hd
    cases h : execute_reward knu.owner (oracle i) with
    | error e =>
      simp only [liveSelect, h, List.map_cons]
      exact (ih (i + 1)).cons _
    | ok tx =>
      simp only [liveSelect, h, List.map_cons]
      exact (ih (i + 1)).cons₂ _

/-- C3: in a live (non-dry-run) `distribute` call, a failing external
execution does not abort the batch: the loop consults the oracle for every
allocation in order (`liveSelect`/`liveRows` recurse over the whole list
regardless of failures), the returned list contains exactly the
successfully executed allocations, and the resulting ledger is the input
ledger with only the new rows appended — previously written rows are left
unchanged. -/
theorem distribute_partial_failure (elig : Eligibility)
    (a lam pool_tt : ℚ) (knot : String) (knus : List KNUEntry)
    (oracle : ℕ → ProcResult) (ts : ℕ → String)
    (ledger : List LedgerRow)
    (h : knus.filter
      (fun k => (validate_eligibility elig k).1 && (k.knot_id == knot))
      ≠ []) :
    distribute elig a lam pool_tt knot knus false oracle ts ledger
      = Except.ok
          (liveSelect oracle 0
            (allocCore (pyInt (pool_tt * 360)) 0
              (calculate_weights
                (knus.filter (fun k => (validate_eligibility elig k).1
                  && (k.knot_id == knot))) a lam)),
           ledger ++
             liveRows oracle ts knot 0
               (allocCore (pyInt (pool_tt * 360)) 0
                 (calculate_weights
                   (knus.filter (fun k => (validate_eligibility elig k).1
                     && (k.knot_id == knot))) a lam))) := by
  unfold distribute
  rw [if_neg (by simp [h]), distLoop_live_eq]

/-- Witness for C3: two eligible records, an oracle failing on the first
call and succeeding on the second; the live `distribute` call still
returns successfully. -/
theorem distribute_partial_failure_witness :
    ([knuImpact50, knuImpact30].filter
      (fun k => (validate_eligibility defaultEligibility k).1
        && (k.knot_id == "K06")) ≠ []) ∧
    ∃ out, distribute defaultEligibility (3/10) (1/2) (401/4) "K06"
        [knuImpact50, knuImpact30] false failThenOk
        (fun _ => "2025-01-02T00:00:00Z") [] = Except.ok out :=
  ⟨by decide,
   ⟨_, distribute_partial_failure defaultEligibility (3/10) (1/2) (401/4)
      "K06" [knuImpact50, knuImpact30] failThenOk
      (fun _ => "2025-01-02T00:00:00Z") [] (by decide)⟩⟩

/-- C9: the weight, fractional amount and integer amount of every
allocation are computed identically in dry-run and live mode and are
unaffected by execution failures (the running total feeding the last
record's remainder accumulates skipped allocations too, since both
modes reduce to the same `allocCore` list): the dry-run output is exactly
the pure allocation list, the live output is its oracle-filtered
selection, and stripping transaction ids embeds the live output into the
dry-run output. -/
theorem dry_run_refines_live (pd : ℤ) (knot : String)
    (oracle : ℕ → ProcResult) (ts : ℕ → String)
    (ws : List (KNUEntry × ℚ)) (i : ℕ) (r : ℤ)
    (ledger : List LedgerRow) :
    distLoop pd knot oracle ts true i r ws ledger
      = ((allocCore pd r ws).map toDryDist, ledger) ∧
    (distLoop pd knot oracle ts false i r ws ledger).1
      = liveSelect oracle i (allocCore pd r ws) ∧
    List.Sublist
      ((liveSelect oracle i (allocCore pd r ws)).map
        (fun d => { d with tx_id := "" }))
      ((allocCore pd r ws).map toDryDist) :=
  ⟨distLoop_dry_eq pd knot oracle ts ws i r ledger,
   by rw [distLoop_live_eq pd knot oracle ts ws i r ledger],
   liveSelect_strip_sublist oracle (allocCore pd r ws) i⟩

end KNU
